import Mathlib

/-!
Verification development for the safe-vault node lifecycle and genesis-bootstrap
state machine (src/node/node_duties/mod.rs), together with the constants of
src/capacity/rate_limit.rs.

The Rust code is shallowly embedded: each lifecycle handler of `NodeDuties`
becomes a pure Lean function from the node state (plus the network snapshot and
collaborator inputs it reads) to the new node state paired with the
`Result<NetworkDuties>` it returns.  Machine integers are modelled as `Nat`
(no arithmetic in this code can overflow `u64`), fallible operations return
`Except`, and the BLS collaborator's signature shares are modelled symbolically
as the payload that was signed tagged with the signer's share index.
-/

namespace SafeVault

/-- Credit identifier; `Default::default()` of the Rust `CreditId` is modelled as `0`. -/
def defaultCreditId : Nat := 0

/-- Credit, from `sn_data_types::Credit`: unique id, amount in nanos, recipient key, memo. -/
structure Credit where
  id : Nat
  amount : Nat
  recipient : Nat
  msg : String
deriving DecidableEq

/-- SignedCredit: a Credit plus the round-1 aggregate signature (modelled opaquely as `Nat`). -/
structure SignedCredit where
  credit : Credit
  actorSignature : Nat
deriving DecidableEq

/-- CreditProof: the final genesis artifact — the SignedCredit, the round-2 aggregate
signature over it, and the co-signing key set (both modelled opaquely). -/
structure CreditProof where
  signedCredit : SignedCredit
  debitingReplicasSig : Nat
  debitingReplicasKeys : Nat
deriving DecidableEq

/-- The payloads this code ever signs: a proposed Credit (round 1), a SignedCredit
(round 2), or the final CreditProof. A BLS signature share's bytes are modelled as
the payload the signer signed. -/
inductive Payload where
  | ofCredit (c : Credit)
  | ofSigned (sc : SignedCredit)
  | ofProof (p : CreditProof)
deriving DecidableEq

/-- The Credit id that a signed payload references. -/
def Payload.creditId : Payload → Nat
  | .ofCredit c => c.id
  | .ofSigned sc => sc.credit.id
  | .ofProof p => p.signedCredit.credit.id

/-- A signature share: the signer's share index and (symbolically) what was signed,
from `sn_data_types::SignatureShare`. -/
structure SignatureShare where
  index : Nat
  share : Payload
deriving DecidableEq

/-- The `BTreeMap<usize, bls::SignatureShare>` of a genesis round, as an association
list with unique keys; insertion overwrites the entry of an existing key. -/
abbrev SigMap := List (Nat × Payload)

def sigKeys (m : SigMap) : List Nat := m.map Prod.fst

/-- Insert with overwrite, mirroring `BTreeMap::insert` for the properties used here
(key-idempotence; the iteration order of the map is never observed by the code). -/
def sigInsert (m : SigMap) (k : Nat) (v : Payload) : SigMap :=
  if k ∈ sigKeys m then m.map (fun e => if e.1 = k then (k, v) else e) else m ++ [(k, v)]

/-- The BLS `combine_signatures` collaborator, modelled as an opaque total function of
the share map (its actual value is never inspected by the embedded code). -/
def combineSignatures (m : SigMap) : Nat := m.length

/-- Elder identity (`ElderState`): own share index, the section public key, the node
name, the group threshold T (T+1 shares interpolate), and whether the signing
collaborator succeeds (signing is fallible in the Rust code). -/
structure ElderState where
  shareIndex : Nat
  sectionKey : Nat
  nodeName : Nat
  threshold : Nat
  signOk : Bool
deriving DecidableEq

inductive Err where
  | invalidOperation (s : String)
  | logic (s : String)
  | signingFailed
deriving DecidableEq

instance {α β : Type} [DecidableEq α] [DecidableEq β] : DecidableEq (Except α β) :=
  fun a b =>
    match a, b with
    | .ok x, .ok y => decidable_of_iff (x = y) (by simp)
    | .error x, .error y => decidable_of_iff (x = y) (by simp)
    | .ok _, .error _ => isFalse (by simp)
    | .error _, .ok _ => isFalse (by simp)

/-- The `sign_as_elder` collaborator: produces this elder's share over a payload,
or fails when the signing collaborator fails. -/
def ElderState.sign (es : ElderState) (p : Payload) : Except Err SignatureShare :=
  if es.signOk then .ok ⟨es.shareIndex, p⟩ else .error .signingFailed

/-- Section-leader duties are opaque values for this core. -/
abbrev ElderDuty := Nat

/-- Round-1 state (`GenesisProposal` of node_duties/genesis.rs). -/
structure GenesisProposal where
  elder_state : ElderState
  proposal : Credit
  signatures : SigMap
  pending_agreement : Option SignedCredit
  queued_ops : List ElderDuty
deriving DecidableEq

/-- Round-2 state (`GenesisAccumulation` of node_duties/genesis.rs). -/
structure GenesisAccumulation where
  elder_state : ElderState
  agreed_proposal : SignedCredit
  signatures : SigMap
  pending_agreement : Option CreditProof
  queued_ops : List ElderDuty
deriving DecidableEq

/-- Modelled from the spec: `GenesisProposal::add` lives in
src/node/node_duties/genesis.rs, which is not among the provided sources.  Per
spec sections 4.2 and 8: recording a share is idempotent by signer index; once
the number of distinct recorded shares reaches T+1 (T the group threshold, such
that T+1 shares interpolate an aggregate) the shares are combined into the
round's aggregate `SignedCredit`; the aggregate, once set, is final and any
further share is a no-op. -/
def GenesisProposal.add (p : GenesisProposal) (sig : SignatureShare) : GenesisProposal :=
  if p.pending_agreement.isSome then p
  else if p.elder_state.threshold + 1 ≤ (sigInsert p.signatures sig.index sig.share).length then
    { p with signatures := sigInsert p.signatures sig.index sig.share,
             pending_agreement := some ⟨p.proposal,
               combineSignatures (sigInsert p.signatures sig.index sig.share)⟩ }
  else { p with signatures := sigInsert p.signatures sig.index sig.share }

/-- Modelled from the spec: `GenesisAccumulation::add` (same missing file as
`GenesisProposal.add`), with identical accumulation mechanics over the
SignedCredit artifact, producing the final `CreditProof` at threshold. -/
def GenesisAccumulation.add (a : GenesisAccumulation) (sig : SignatureShare) :
    GenesisAccumulation :=
  if a.pending_agreement.isSome then a
  else if a.elder_state.threshold + 1 ≤ (sigInsert a.signatures sig.index sig.share).length then
    { a with signatures := sigInsert a.signatures sig.index sig.share,
             pending_agreement := some ⟨a.agreed_proposal,
               combineSignatures (sigInsert a.signatures sig.index sig.share),
               a.elder_state.sectionKey⟩ }
  else { a with signatures := sigInsert a.signatures sig.index sig.share }

/-- The `GenesisStage` enum of node_duties/mod.rs. -/
inductive GenesisStage where
  | AwaitingGenesisThreshold (es : ElderState) (queue : List ElderDuty)
  | ProposingGenesis (b : GenesisProposal)
  | AccumulatingGenesis (b : GenesisAccumulation)
deriving DecidableEq

/-- Modelled from the spec: the section-leader subsystem (`ElderDuties`, whose
module is not among the provided sources) is an external collaborator; we record
only the sequence of duties it has been fed, in order. -/
structure ElderSub where
  processed : List ElderDuty
deriving DecidableEq

/-- The `Stage` enum of node_duties/mod.rs.  `Adult` carries `AdultDuties` in Rust;
nothing in this core reads its contents, so it is not modelled. -/
inductive Stage where
  | Infant
  | Adult
  | Genesis (g : GenesisStage)
  | AssumingElderDuties (es : ElderState) (queue : List ElderDuty)
  | Elder (sub : ElderSub)
deriving DecidableEq

structure NodeInfo where
  genesis : Bool
  reward_key : Nat
deriving DecidableEq

structure Node where
  node_info : NodeInfo
  stage : Stage
deriving DecidableEq

/-- The network-state snapshot read at the start of `begin_transition_to_elder`:
whether this is the network's first section (`our_prefix().is_empty()`), the
current elder count, and the section signing-chain length. -/
structure Snapshot where
  firstSection : Bool
  elderCount : Nat
  sectionChainLen : Nat
deriving DecidableEq

/-- The outbound operations (`NetworkDuties`) this core can return. Operations
produced by the external section-leader subsystem are opaque (`other`). -/
inductive Op where
  | registerWallet (wallet : Nat)
  | sendRegisterWallet (wallet : Nat)
  | sendProposeGenesis (credit : Credit) (sig : SignatureShare) (dstSection : Nat)
  | sendAccumulateGenesis (sc : SignedCredit) (sig : SignatureShare) (dstSection : Nat)
  | sendWalletQuery (dstSection : Nat)
  | rewardAddNode (node : Nat)
  | rewardSetNodeWallet (node : Nat) (wallet : Nat)
  | other (tag : Nat)
deriving DecidableEq

/-- Modelled from the spec: outputs of the external collaborators — the
section-leader subsystem's `initiate`, `process_elder_duty` and the elder
constellation (their modules are not among the provided sources) — are opaque
operation tags, and the genesis elder knowledge used by a designated genesis
Infant node is an externally provided elder identity. -/
structure Env where
  initiateOps : Option CreditProof → List Nat
  dutyOps : ElderDuty → List Nat
  elderChangeOps : List Nat
  genesisElderState : ElderState

def GENESIS_ELDER_COUNT : Nat := 5

/-- From src/capacity/rate_limit.rs: `MAX_SUPPLY = u32::MAX as u64 * 1_000_000_000`. -/
def MAX_SUPPLY : Nat := 4294967295 * 1000000000

/-- The guard of `begin_transition_to_elder`: already Elder, already assuming
elder duties, or already awaiting the genesis threshold. -/
def beginGuard : Stage → Bool
  | .Elder _ => true
  | .AssumingElderDuties _ _ => true
  | .Genesis (.AwaitingGenesisThreshold _ _) => true
  | _ => false

def Stage.isInfant : Stage → Bool
  | .Infant => true
  | _ => false

def Stage.isAdult : Stage → Bool
  | .Adult => true
  | _ => false

/-- Handler for `AssumeAdultDuties` (node_duties/mod.rs, `assume_adult_duties`):
no-op when already Adult, otherwise builds adult duties, swaps the stage to
`Adult` and returns a `RegisterWallet` duty. -/
def assume_adult_duties (nd : Node) : Node × Except Err (List Op) :=
  match nd.stage with
  | .Adult => (nd, .ok [])
  | _ => ({ nd with stage := .Adult }, .ok [.registerWallet nd.node_info.reward_key])

/-- Handler for `AssumeElderDuties` (node_duties/mod.rs, `begin_transition_to_elder`).
The elder identity built from the event's elder knowledge is passed in as `ek`. -/
def begin_transition_to_elder (nd : Node) (snap : Snapshot) (ek : ElderState) :
    Node × Except Err (List Op) :=
  if beginGuard nd.stage then (nd, .ok [])
  else if !nd.node_info.genesis ∧ nd.stage.isInfant then
    (nd, .error (.invalidOperation "only genesis node can transition to Elder as Infant"))
  else if snap.firstSection ∧ snap.elderCount = GENESIS_ELDER_COUNT ∧ nd.stage.isAdult
      ∧ snap.sectionChainLen ≤ 5 then
    let credit : Credit :=
      { id := defaultCreditId
        amount := 4294967295 * 1000000000
        recipient := ek.sectionKey
        msg := "genesis" }
    match ek.sign (.ofCredit credit) with
    | .error e => (nd, .error e)
    | .ok share =>
      let sigs := sigInsert [] share.index share.share
      ({ nd with stage := .Genesis (.ProposingGenesis
          { elder_state := ek
            proposal := credit
            signatures := sigs
            pending_agreement := none
            queued_ops := [] }) },
       .ok [.sendProposeGenesis credit share ek.sectionKey])
  else if snap.firstSection ∧ snap.elderCount < GENESIS_ELDER_COUNT
      ∧ snap.sectionChainLen ≤ 5 then
    ({ nd with stage := .Genesis (.AwaitingGenesisThreshold ek []) }, .ok [])
  else
    ({ nd with stage := .AssumingElderDuties ek [] }, .ok [.sendWalletQuery ek.sectionKey])

/-- Handler for `ReceiveGenesisProposal` (node_duties/mod.rs,
`receive_genesis_proposal`). -/
def receive_genesis_proposal (nd : Node) (credit : Credit) (sig : SignatureShare) :
    Node × Except Err (List Op) :=
  match nd.stage with
  | .Genesis (.AccumulatingGenesis _) => (nd, .ok [])
  | .Elder _ => (nd, .ok [])
  | .Genesis (.AwaitingGenesisThreshold es queue) =>
    match es.sign (.ofCredit credit) with
    | .error e => (nd, .error e)
    | .ok own =>
      let sigs := sigInsert (sigInsert [] sig.index sig.share) own.index own.share
      ({ nd with stage := .Genesis (.ProposingGenesis
          { elder_state := es
            proposal := credit
            signatures := sigs
            pending_agreement := none
            queued_ops := queue }) },
       .ok [.sendProposeGenesis credit own es.sectionKey])
  | .Genesis (.ProposingGenesis b) =>
    let b2 := b.add sig
    match b2.pending_agreement with
    | some sc =>
      match b2.elder_state.sign (.ofSigned sc) with
      | .error e => ({ nd with stage := .Genesis (.ProposingGenesis b2) }, .error e)
      | .ok own =>
        let sigs := sigInsert [] own.index own.share
        ({ nd with stage := .Genesis (.AccumulatingGenesis
            { elder_state := b2.elder_state
              agreed_proposal := sc
              signatures := sigs
              pending_agreement := none
              queued_ops := b2.queued_ops }) },
         .ok [.sendAccumulateGenesis sc own b2.elder_state.sectionKey])
    | none => ({ nd with stage := .Genesis (.ProposingGenesis b2) }, .ok [])
  | _ => (nd, .error (.invalidOperation "invalid self.stage at fn receive_genesis_proposal"))

/-- Finalization into Elder from an elder identity and a drained queue
(the shared tail of `finish_transition_to_elder`). -/
def finishFrom (nd : Node) (es : ElderState) (queue : List ElderDuty)
    (genesis : Option CreditProof) (env : Env) : Node × Except Err (List Op) :=
  let initOps := (env.initiateOps genesis).map Op.other
  let dutyOuts := (queue.flatMap env.dutyOps).map Op.other
  ({ nd with stage := .Elder ⟨queue⟩ },
   .ok (initOps ++ dutyOuts ++
     [Op.rewardAddNode es.nodeName, Op.rewardSetNodeWallet es.nodeName nd.node_info.reward_key]))

/-- Handler for `InitSectionWallet` and the genesis finalization
(node_duties/mod.rs, `finish_transition_to_elder`): builds the section-leader
subsystem, replays the queued duties in FIFO order, then registers this node
and its reward wallet.  `wallet_info` seeds the external subsystem and is not
otherwise inspected by this core. -/
def finish_transition_to_elder (nd : Node) (_wallet_info : Option CreditProof → Nat)
    (genesis : Option CreditProof) (env : Env) : Node × Except Err (List Op) :=
  match nd.stage with
  | .Elder _ => (nd, .ok [])
  | .Infant =>
    if nd.node_info.genesis then finishFrom nd env.genesisElderState [] genesis env
    else (nd, .error (.invalidOperation "cannot finish_transition_to_elder as Infant"))
  | .Adult =>
    (nd, .error (.invalidOperation
      "cannot finish_transition_to_elder as Adult | AwaitingGenesisThreshold | ProposingGenesis"))
  | .Genesis (.AwaitingGenesisThreshold _ _) =>
    (nd, .error (.invalidOperation
      "cannot finish_transition_to_elder as Adult | AwaitingGenesisThreshold | ProposingGenesis"))
  | .Genesis (.ProposingGenesis _) =>
    (nd, .error (.invalidOperation
      "cannot finish_transition_to_elder as Adult | AwaitingGenesisThreshold | ProposingGenesis"))
  | .Genesis (.AccumulatingGenesis b) => finishFrom nd b.elder_state b.queued_ops genesis env
  | .AssumingElderDuties es queue => finishFrom nd es queue genesis env

/-- Handler for `ReceiveGenesisAccumulation` (node_duties/mod.rs,
`receive_genesis_accumulation`). -/
def receive_genesis_accumulation (nd : Node) (sc : SignedCredit) (sig : SignatureShare)
    (env : Env) : Node × Except Err (List Op) :=
  match nd.stage with
  | .Elder _ => (nd, .ok [])
  | .Genesis (.ProposingGenesis b) =>
    match b.elder_state.sign (.ofSigned sc) with
    | .error e => (nd, .error e)
    | .ok own =>
      let sigs := sigInsert (sigInsert [] sig.index sig.share) own.index own.share
      ({ nd with stage := .Genesis (.AccumulatingGenesis
          { elder_state := b.elder_state
            agreed_proposal := sc
            signatures := sigs
            pending_agreement := none
            queued_ops := b.queued_ops }) },
       .ok [])
  | .Genesis (.AccumulatingGenesis b) =>
    let b2 := b.add sig
    match b2.pending_agreement with
    | some proof =>
      let b3 := { b2 with pending_agreement := (none : Option CreditProof) }
      match b3.elder_state.sign (.ofProof proof) with
      | .error e => ({ nd with stage := .Genesis (.AccumulatingGenesis b3) }, .error e)
      | .ok own =>
        let b4 := { b3 with signatures := sigInsert b3.signatures own.index own.share }
        finish_transition_to_elder { nd with stage := .Genesis (.AccumulatingGenesis b4) }
          (fun _ => proof.debitingReplicasKeys) (some proof) env
    | none => ({ nd with stage := .Genesis (.AccumulatingGenesis b2) }, .ok [])
  | _ =>
    (nd, .error (.invalidOperation "invalid self.stage at fn receive_genesis_accumulation"))

/-- The `RunAsElder` arm of `process` (node_duties/mod.rs): execute at Elder,
enqueue (returning success with no operations) in every transitional stage via
`try_enqueue_elder_duty`, and fail with a not-an-Elder logic error otherwise. -/
def processRunAsElder (nd : Node) (d : ElderDuty) (env : Env) :
    Node × Except Err (List Op) :=
  match nd.stage with
  | .Elder sub =>
    ({ nd with stage := .Elder ⟨sub.processed ++ [d]⟩ }, .ok ((env.dutyOps d).map Op.other))
  | .AssumingElderDuties es queue =>
    ({ nd with stage := .AssumingElderDuties es (queue ++ [d]) }, .ok [])
  | .Genesis (.AwaitingGenesisThreshold es queue) =>
    ({ nd with stage := .Genesis (.AwaitingGenesisThreshold es (queue ++ [d])) }, .ok [])
  | .Genesis (.ProposingGenesis b) =>
    ({ nd with stage := .Genesis (.ProposingGenesis
        { b with queued_ops := b.queued_ops ++ [d] }) }, .ok [])
  | .Genesis (.AccumulatingGenesis b) =>
    ({ nd with stage := .Genesis (.AccumulatingGenesis
        { b with queued_ops := b.queued_ops ++ [d] }) }, .ok [])
  | .Infant => (nd, .error (.logic "Currently not an Elder"))
  | .Adult => (nd, .error (.logic "Currently not an Elder"))

/-- Handler for `RegisterWallet` (node_duties/mod.rs, `register_wallet`): requires
`node_state()`, which succeeds only with adult or elder duties present. -/
def register_wallet (nd : Node) (wallet : Nat) : Node × Except Err (List Op) :=
  match nd.stage with
  | .Adult => (nd, .ok [.sendRegisterWallet wallet])
  | .Elder _ => (nd, .ok [.sendRegisterWallet wallet])
  | _ => (nd, .error (.invalidOperation "match self.adult_duties() is None"))

/-- Handler for `InitiateElderChange` (node_duties/mod.rs): a no-op below Elder;
at Elder the external constellation handles it and the node stays at Elder. -/
def initiate_elder_change (nd : Node) (env : Env) : Node × Except Err (List Op) :=
  match nd.stage with
  | .Elder sub => ({ nd with stage := .Elder sub }, .ok (env.elderChangeOps.map Op.other))
  | _ => (nd, .ok [])

/-- Handler for `FinishElderChange` (node_duties/mod.rs): a no-op below Elder;
at Elder the external constellation handles it and the node stays at Elder. -/
def finish_elder_change (nd : Node) (env : Env) : Node × Except Err (List Op) :=
  match nd.stage with
  | .Elder sub => ({ nd with stage := .Elder sub }, .ok (env.elderChangeOps.map Op.other))
  | _ => (nd, .ok [])

/-! Concrete fixtures used by witnesses and counterexamples. -/

def esC : ElderState := ⟨1, 42, 9, 2, true⟩

def envC : Env := ⟨fun _ => [], fun d => [d], [11], ⟨0, 0, 0, 2, true⟩⟩

def creditAt (key : Nat) : Credit :=
  { id := defaultCreditId, amount := MAX_SUPPLY, recipient := key, msg := "genesis" }

/-- Folding a list of incoming shares into a round with `add`. -/
def addAll (p : GenesisProposal) (l : List SignatureShare) : GenesisProposal :=
  l.foldl GenesisProposal.add p

/-! A single node's lifecycle, as a step relation over all events the
dispatcher can deliver (node_duties/mod.rs, `process`/`process_node_duty`),
restricted to network snapshots reporting a non-empty section prefix. -/

def Stage.notGenesis : Stage → Bool
  | .Genesis _ => false
  | _ => true

/-- The Stage is one of the two active genesis-round sub-stages. -/
def Stage.inGenesisRound : Stage → Bool
  | .Genesis (.ProposingGenesis _) => true
  | .Genesis (.AccumulatingGenesis _) => true
  | _ => false

/-- One lifecycle event processed by a node whose snapshot always reports a
non-first section (non-empty prefix). -/
inductive LStep : Node → Node → Prop where
  | assumeAdult (nd : Node) : LStep nd (assume_adult_duties nd).1
  | assumeElder (nd : Node) (snap : Snapshot) (ek : ElderState)
      (h : snap.firstSection = false) :
      LStep nd (begin_transition_to_elder nd snap ek).1
  | recvProposal (nd : Node) (c : Credit) (s : SignatureShare) :
      LStep nd (receive_genesis_proposal nd c s).1
  | recvAccum (nd : Node) (sc : SignedCredit) (s : SignatureShare) (env : Env) :
      LStep nd (receive_genesis_accumulation nd sc s env).1
  | initWallet (nd : Node) (wi : Option CreditProof → Nat) (env : Env) :
      LStep nd (finish_transition_to_elder nd wi none env).1
  | elderDuty (nd : Node) (d : ElderDuty) (env : Env) :
      LStep nd (processRunAsElder nd d env).1
  | regWallet (nd : Node) (w : Nat) : LStep nd (register_wallet nd w).1
  | initiateChange (nd : Node) (env : Env) : LStep nd (initiate_elder_change nd env).1
  | finishChange (nd : Node) (env : Env) : LStep nd (finish_elder_change nd env).1

/-! The five-elder genesis run (C1): a global system of section nodes that
exchange the proposal/accumulation broadcasts through an at-least-once message
pool.  Delivered messages stay in the pool (the messaging layer may redeliver);
a handler's outgoing genesis broadcasts are appended to the pool. -/

inductive GMsg where
  | propose (c : Credit) (s : SignatureShare)
  | accumulate (sc : SignedCredit) (s : SignatureShare)
deriving DecidableEq

def opToMsg : Op → Option GMsg
  | .sendProposeGenesis c s _ => some (.propose c s)
  | .sendAccumulateGenesis sc s _ => some (.accumulate sc s)
  | _ => none

def resultMsgs : Except Err (List Op) → List GMsg
  | .ok l => l.filterMap opToMsg
  | .error _ => []

structure GState where
  nodes : List Node
  pool : List GMsg

/-- Deliver one event to node `i`: replace that node by the handler's result and
append the handler's outgoing genesis broadcasts to the pool. -/
def applyAt (st : GState) (i : Nat) (f : Node → Node × Except Err (List Op)) : GState :=
  match st.nodes.get? i with
  | none => st
  | some nd => ⟨st.nodes.set i (f nd).1, st.pool ++ resultMsgs (f nd).2⟩

/-- One step of the genesis-section run: some node processes one of its own
lifecycle events or one exchanged genesis message.  All elder identities handed
out by the network layer carry the section's key `κ`; everything else (elder
counts, chain lengths, signing success, external subsystems) is unconstrained. -/
inductive GStep (κ : Nat) : GState → GState → Prop where
  | assumeAdult {st : GState} (i : Nat) :
      GStep κ st (applyAt st i (fun nd => assume_adult_duties nd))
  | assumeElder {st : GState} (i : Nat) (snap : Snapshot) (ek : ElderState)
      (hκ : ek.sectionKey = κ) :
      GStep κ st (applyAt st i (fun nd => begin_transition_to_elder nd snap ek))
  | deliverPropose {st : GState} (i : Nat) (c : Credit) (s : SignatureShare)
      (hm : GMsg.propose c s ∈ st.pool) :
      GStep κ st (applyAt st i (fun nd => receive_genesis_proposal nd c s))
  | deliverAccum {st : GState} (i : Nat) (sc : SignedCredit) (s : SignatureShare) (env : Env)
      (hm : GMsg.accumulate sc s ∈ st.pool) :
      GStep κ st (applyAt st i (fun nd => receive_genesis_accumulation nd sc s env))
  | initWallet {st : GState} (i : Nat) (wi : Option CreditProof → Nat) (env : Env) :
      GStep κ st (applyAt st i (fun nd => finish_transition_to_elder nd wi none env))
  | elderDuty {st : GState} (i : Nat) (d : ElderDuty) (env : Env) :
      GStep κ st (applyAt st i (fun nd => processRunAsElder nd d env))
  | regWallet {st : GState} (i : Nat) (w : Nat) :
      GStep κ st (applyAt st i (fun nd => register_wallet nd w))
  | initiateChange {st : GState} (i : Nat) (env : Env) :
      GStep κ st (applyAt st i (fun nd => initiate_elder_change nd env))
  | finishChange {st : GState} (i : Nat) (env : Env) :
      GStep κ st (applyAt st i (fun nd => finish_elder_change nd env))

/-- The five genesis elders, all starting as Infants, with an empty pool. -/
def gInit (ni : NodeInfo) : GState := ⟨List.replicate 5 ⟨ni, .Infant⟩, []⟩

/-- A signed payload references the one genesis credit of section key `κ`. -/
def payloadOk (κ : Nat) : Payload → Prop
  | .ofCredit c => c = creditAt κ
  | .ofSigned sc => sc.credit = creditAt κ
  | .ofProof p => p.signedCredit.credit = creditAt κ

/-- Every message in flight carries the genesis credit, and its attached share
is the sender's signature over exactly the artifact the message carries. -/
def msgOk (κ : Nat) : GMsg → Prop
  | .propose c s => c = creditAt κ ∧ s.share = .ofCredit c
  | .accumulate sc s => sc.credit = creditAt κ ∧ s.share = .ofSigned sc

def stageOk (κ : Nat) : Stage → Prop
  | .Genesis (.ProposingGenesis b) =>
      b.proposal = creditAt κ ∧
      (∀ e ∈ b.signatures, payloadOk κ e.2) ∧
      (∀ sc, b.pending_agreement = some sc → sc.credit = creditAt κ)
  | .Genesis (.AccumulatingGenesis b) =>
      b.agreed_proposal.credit = creditAt κ ∧
      (∀ e ∈ b.signatures, payloadOk κ e.2) ∧
      (∀ p, b.pending_agreement = some p → p.signedCredit.credit = creditAt κ)
  | _ => True

def gInv (κ : Nat) (st : GState) : Prop :=
  (∀ m ∈ st.pool, msgOk κ m) ∧ (∀ nd ∈ st.nodes, stageOk κ nd.stage)

/-! Theorems. -/

/-- C2: a node that is Adult, in the first section (empty prefix) with exactly five
elders and a section chain within its initial bound, on `AssumeElderDuties`
constructs the genesis Credit (amount = the network's fixed maximum supply
`MAX_SUPPLY`, recipient = the section key), inserts its own signature share,
moves to `ProposingGenesis`, and returns exactly one broadcast operation carrying
the Credit and that share. -/
theorem genesis_originator_branch (ni : NodeInfo) (snap : Snapshot) (ek : ElderState)
    (hfirst : snap.firstSection = true) (hcount : snap.elderCount = 5)
    (hchain : snap.sectionChainLen ≤ 5) (hsign : ek.signOk = true) :
    begin_transition_to_elder ⟨ni, .Adult⟩ snap ek =
      (⟨ni, .Genesis (.ProposingGenesis
        { elder_state := ek
          proposal := creditAt ek.sectionKey
          signatures := [(ek.shareIndex, .ofCredit (creditAt ek.sectionKey))]
          pending_agreement := none
          queued_ops := [] })⟩,
       .ok [.sendProposeGenesis (creditAt ek.sectionKey)
              ⟨ek.shareIndex, .ofCredit (creditAt ek.sectionKey)⟩ ek.sectionKey]) := by
  simp [begin_transition_to_elder, beginGuard, Stage.isAdult, Stage.isInfant,
        ElderState.sign, hfirst, hcount, hchain, hsign, GENESIS_ELDER_COUNT,
        creditAt, MAX_SUPPLY, sigInsert, sigKeys]

theorem genesis_originator_branch_witness :
    begin_transition_to_elder ⟨⟨false, 7⟩, .Adult⟩ ⟨true, 5, 3⟩ esC =
      (⟨⟨false, 7⟩, .Genesis (.ProposingGenesis
        { elder_state := esC
          proposal := creditAt 42
          signatures := [(1, .ofCredit (creditAt 42))]
          pending_agreement := none
          queued_ops := [] })⟩,
       .ok [.sendProposeGenesis (creditAt 42) ⟨1, .ofCredit (creditAt 42)⟩ 42]) :=
  genesis_originator_branch ⟨false, 7⟩ ⟨true, 5, 3⟩ esC rfl rfl (by decide) rfl

/-- C10: a node in `ProposingGenesis` handling `ReceiveGenesisAccumulation`
adopts the incoming SignedCredit as the agreed proposal unconditionally — the
equation holds for every incoming `sc`, with no comparison against the node's
own round-1 proposal or threshold — records the sender's share and its own
fresh share over the SignedCredit, moves to `AccumulatingGenesis`, and returns
an empty operation list (no broadcast). -/
theorem accumulation_while_proposing (ni : NodeInfo) (b : GenesisProposal)
    (sc : SignedCredit) (sig : SignatureShare) (env : Env)
    (hsign : b.elder_state.signOk = true) :
    receive_genesis_accumulation ⟨ni, .Genesis (.ProposingGenesis b)⟩ sc sig env =
      (⟨ni, .Genesis (.AccumulatingGenesis
        { elder_state := b.elder_state
          agreed_proposal := sc
          signatures := sigInsert (sigInsert [] sig.index sig.share)
            b.elder_state.shareIndex (.ofSigned sc)
          pending_agreement := none
          queued_ops := b.queued_ops })⟩,
       .ok []) := by
  simp [receive_genesis_accumulation, ElderState.sign, hsign]

theorem accumulation_while_proposing_witness :
    receive_genesis_accumulation
      ⟨⟨false, 7⟩, .Genesis (.ProposingGenesis ⟨esC, creditAt 42, [], none, [4]⟩)⟩
      ⟨creditAt 43, 0⟩ ⟨3, .ofCredit (creditAt 43)⟩ envC =
      (⟨⟨false, 7⟩, .Genesis (.AccumulatingGenesis
        { elder_state := esC
          agreed_proposal := ⟨creditAt 43, 0⟩
          signatures := sigInsert (sigInsert [] 3 (.ofCredit (creditAt 43)))
            1 (.ofSigned ⟨creditAt 43, 0⟩)
          pending_agreement := none
          queued_ops := [4] })⟩,
       .ok []) :=
  accumulation_while_proposing ⟨false, 7⟩ ⟨esC, creditAt 42, [], none, [4]⟩
    ⟨creditAt 43, 0⟩ ⟨3, .ofCredit (creditAt 43)⟩ envC rfl

/-- C9: a section-leader duty submitted while the stage is transitional
(`AssumingElderDuties`, `AwaitingGenesisThreshold`, `ProposingGenesis` or
`AccumulatingGenesis`) is appended to the owning stage's queue and the call
returns success with no operations; while `Infant` or `Adult` the same
submission returns the not-an-Elder logic error. -/
theorem elder_duty_queued_or_rejected (ni : NodeInfo) (d : ElderDuty) (env : Env) :
    (∀ es queue, processRunAsElder ⟨ni, .AssumingElderDuties es queue⟩ d env =
        (⟨ni, .AssumingElderDuties es (queue ++ [d])⟩, .ok []))
  ∧ (∀ es queue, processRunAsElder ⟨ni, .Genesis (.AwaitingGenesisThreshold es queue)⟩ d env =
        (⟨ni, .Genesis (.AwaitingGenesisThreshold es (queue ++ [d]))⟩, .ok []))
  ∧ (∀ b, processRunAsElder ⟨ni, .Genesis (.ProposingGenesis b)⟩ d env =
        (⟨ni, .Genesis (.ProposingGenesis { b with queued_ops := b.queued_ops ++ [d] })⟩, .ok []))
  ∧ (∀ b, processRunAsElder ⟨ni, .Genesis (.AccumulatingGenesis b)⟩ d env =
        (⟨ni, .Genesis (.AccumulatingGenesis { b with queued_ops := b.queued_ops ++ [d] })⟩,
         .ok []))
  ∧ processRunAsElder ⟨ni, .Infant⟩ d env =
      (⟨ni, .Infant⟩, .error (.logic "Currently not an Elder"))
  ∧ processRunAsElder ⟨ni, .Adult⟩ d env =
      (⟨ni, .Adult⟩, .error (.logic "Currently not an Elder")) :=
  ⟨fun _ _ => rfl, fun _ _ => rfl, fun _ => rfl, fun _ => rfl, rfl, rfl⟩

/-! Share-map lemmas. -/

theorem sigKeys_map_replace (m : SigMap) (k : Nat) (v : Payload) :
    sigKeys (m.map (fun e => if e.1 = k then (k, v) else e)) = sigKeys m := by
  induction m with
  | nil => rfl
  | cons e t ih =>
    simp only [List.map_cons, sigKeys] at *
    by_cases h : e.1 = k
    · simp [h, ih]
    · simp [h, ih]

theorem mem_sigKeys_sigInsert (m : SigMap) (k a : Nat) (v : Payload) :
    a ∈ sigKeys (sigInsert m k v) ↔ a = k ∨ a ∈ sigKeys m := by
  unfold sigInsert
  split
  · rename_i h
    rw [sigKeys_map_replace]
    constructor
    · exact Or.inr
    · rintro (rfl | ha)
      · exact h
      · exact ha
  · simp [sigKeys, or_comm]

theorem length_sigInsert (m : SigMap) (k : Nat) (v : Payload) :
    (sigInsert m k v).length = if k ∈ sigKeys m then m.length else m.length + 1 := by
  unfold sigInsert
  split <;> simp

theorem mem_sigInsert (m : SigMap) (k : Nat) (v : Payload) (e : Nat × Payload)
    (he : e ∈ sigInsert m k v) : e = (k, v) ∨ e ∈ m := by
  unfold sigInsert at he
  split at he
  · rcases List.mem_map.mp he with ⟨x, hx, hfx⟩
    by_cases h : x.1 = k
    · left; rw [← hfx]; simp [h]
    · right; rw [← hfx]; simp [h]; exact hx
  · rcases List.mem_append.mp he with h | h
    · right; exact h
    · left; simpa using h

theorem proposal_add_queued_ops (p : GenesisProposal) (s : SignatureShare) :
    (p.add s).queued_ops = p.queued_ops := by
  unfold GenesisProposal.add
  split
  · rfl
  · split <;> rfl

theorem accumulation_add_queued_ops (a : GenesisAccumulation) (s : SignatureShare) :
    (a.add s).queued_ops = a.queued_ops := by
  unfold GenesisAccumulation.add
  split
  · rfl
  · split <;> rfl

theorem addAll_below (l : List SignatureShare) : ∀ (p : GenesisProposal),
    p.pending_agreement = none →
    (∀ s ∈ l, s.index ∉ sigKeys p.signatures) →
    (l.map SignatureShare.index).Nodup →
    p.signatures.length + l.length ≤ p.elder_state.threshold →
    (addAll p l).pending_agreement = none ∧
    (addAll p l).signatures.length = p.signatures.length + l.length ∧
    (addAll p l).elder_state = p.elder_state ∧
    (∀ a, a ∈ sigKeys (addAll p l).signatures ↔
      (a ∈ sigKeys p.signatures ∨ a ∈ l.map SignatureShare.index)) := by
  induction l with
  | nil =>
    intro p hpend _ _ _
    exact ⟨hpend, by simp [addAll], rfl, by simp [addAll]⟩
  | cons s t ih =>
    intro p hpend hdisj hnodup hlen
    have hknot : s.index ∉ sigKeys p.signatures := hdisj s (by simp)
    have hlen1 : (sigInsert p.signatures s.index s.share).length = p.signatures.length + 1 := by
      rw [length_sigInsert]; simp [hknot]
    simp only [List.length_cons] at hlen
    have hcond : ¬ (p.elder_state.threshold + 1 ≤
        (sigInsert p.signatures s.index s.share).length) := by
      rw [hlen1]; omega
    have hstep : p.add s = { p with signatures := sigInsert p.signatures s.index s.share } := by
      unfold GenesisProposal.add
      simp [hpend, hcond]
    have hrw : addAll p (s :: t) =
        addAll { p with signatures := sigInsert p.signatures s.index s.share } t := by
      simp only [addAll, List.foldl_cons, hstep]
    simp only [List.map_cons, List.nodup_cons] at hnodup
    have hdisj2 : ∀ x ∈ t, x.index ∉
        sigKeys (sigInsert p.signatures s.index s.share) := by
      intro x hx hmem
      rcases (mem_sigKeys_sigInsert _ _ _ _).mp hmem with h | h
      · exact hnodup.1 (h ▸ List.mem_map_of_mem SignatureShare.index hx)
      · exact hdisj x (List.mem_cons_of_mem s hx) h
    obtain ⟨h1, h2, h3, h4⟩ := ih { p with signatures := sigInsert p.signatures s.index s.share }
      hpend hdisj2 hnodup.2 (by simp [hlen1]; omega)
    rw [hrw]
    refine ⟨h1, ?_, h3, ?_⟩
    · rw [h2]; simp [hlen1]; omega
    · intro a
      rw [h4 a]
      simp [mem_sigKeys_sigInsert, or_assoc, or_comm (a := a = s.index)]

/-- C3: for a genesis round with threshold T, after T distinct signers' shares
the aggregate (`pending_agreement`) is absent; after the (T+1)-th distinct
signer's share it is present; a duplicate share from an already-seen signer
index never changes the count of distinct shares nor the aggregate; and once
the aggregate is set any further share is a full no-op — for both the round-1
(`GenesisProposal`) and round-2 (`GenesisAccumulation`) mechanics. -/
theorem genesis_threshold_exactness (es : ElderState) (c : Credit) (q : List ElderDuty)
    (l : List SignatureShare) (hlen : l.length = es.threshold + 1)
    (hnodup : (l.map SignatureShare.index).Nodup) :
    ((addAll ⟨es, c, [], none, q⟩ (l.take es.threshold)).pending_agreement = none
      ∧ (addAll ⟨es, c, [], none, q⟩ (l.take es.threshold)).signatures.length = es.threshold)
  ∧ (addAll ⟨es, c, [], none, q⟩ l).pending_agreement.isSome = true
  ∧ (∀ (p : GenesisProposal) (s : SignatureShare), s.index ∈ sigKeys p.signatures →
      p.signatures.length ≤ p.elder_state.threshold →
      (p.add s).signatures.length = p.signatures.length ∧
      (p.add s).pending_agreement = p.pending_agreement)
  ∧ (∀ (p : GenesisProposal) (s : SignatureShare), p.pending_agreement.isSome = true →
      p.add s = p)
  ∧ (∀ (a : GenesisAccumulation) (s : SignatureShare), s.index ∈ sigKeys a.signatures →
      a.signatures.length ≤ a.elder_state.threshold →
      (a.add s).signatures.length = a.signatures.length ∧
      (a.add s).pending_agreement = a.pending_agreement)
  ∧ (∀ (a : GenesisAccumulation) (s : SignatureShare), a.pending_agreement.isSome = true →
      a.add s = a) := by
  have htake_len : (l.take es.threshold).length = es.threshold := by
    rw [List.length_take, hlen]; omega
  have htake_nodup : ((l.take es.threshold).map SignatureShare.index).Nodup := by
    refine hnodup.sublist ?_
    exact (List.take_sublist _ _).map _
  have hbelow := addAll_below (l.take es.threshold) ⟨es, c, [], none, q⟩ rfl
    (by intro s _ hmem; simp [sigKeys] at hmem) htake_nodup
    (by simp [htake_len, sigKeys])
  obtain ⟨hbp, hblen, hbes, hbkeys⟩ := hbelow
  refine ⟨⟨hbp, by rw [hblen]; simp [htake_len]⟩, ?_, ?_, ?_, ?_, ?_⟩
  · obtain ⟨x, hx⟩ : ∃ x, l.drop es.threshold = [x] := by
      apply List.length_eq_one.mp
      rw [List.length_drop, hlen]; omega
    have hsplit : l = l.take es.threshold ++ [x] := by
      conv_lhs => rw [← List.take_append_drop es.threshold l]
      rw [hx]
    have hxfresh : x.index ∉ sigKeys (addAll ⟨es, c, [], none, q⟩
        (l.take es.threshold)).signatures := by
      rw [hbkeys]
      rintro (h | h)
      · simp [sigKeys] at h
      · have := hsplit ▸ hnodup
        simp only [List.map_append, List.map_cons, List.map_nil, List.nodup_append] at this
        exact this.2.2 h (by simp)
    have hfold : addAll ⟨es, c, [], none, q⟩ l =
        (addAll ⟨es, c, [], none, q⟩ (l.take es.threshold)).add x := by
      conv_lhs => rw [hsplit]
      simp [addAll, List.foldl_append]
    rw [hfold]
    unfold GenesisProposal.add
    rw [hbp]
    simp only [Option.isSome_none, Bool.false_eq_true, if_false]
    have : (sigInsert (addAll ⟨es, c, [], none, q⟩ (l.take es.threshold)).signatures
        x.index x.share).length = es.threshold + 1 := by
      rw [length_sigInsert, if_neg hxfresh, hblen]
      simp [htake_len]
    rw [hbes, if_pos (le_of_eq this.symm)]
    rfl
  · intro p s hmem hle
    unfold GenesisProposal.add
    split
    · exact ⟨rfl, rfl⟩
    · rename_i hpend
      have hlen2 : (sigInsert p.signatures s.index s.share).length = p.signatures.length := by
        rw [length_sigInsert, if_pos hmem]
      rw [if_neg (by omega)]
      exact ⟨hlen2, rfl⟩
  · intro p s hpend
    unfold GenesisProposal.add
    rw [if_pos hpend]
  · intro a s hmem hle
    unfold GenesisAccumulation.add
    split
    · exact ⟨rfl, rfl⟩
    · rename_i hpend
      have hlen2 : (sigInsert a.signatures s.index s.share).length = a.signatures.length := by
        rw [length_sigInsert, if_pos hmem]
      rw [if_neg (by omega)]
      exact ⟨hlen2, rfl⟩
  · intro a s hpend
    unfold GenesisAccumulation.add
    rw [if_pos hpend]

theorem genesis_threshold_exactness_witness :
    (addAll ⟨esC, creditAt 42, [], none, []⟩
        ([⟨1, .ofCredit (creditAt 42)⟩, ⟨2, .ofCredit (creditAt 42)⟩,
          ⟨3, .ofCredit (creditAt 42)⟩].take 2)).pending_agreement = none ∧
    (addAll ⟨esC, creditAt 42, [], none, []⟩
        [⟨1, .ofCredit (creditAt 42)⟩, ⟨2, .ofCredit (creditAt 42)⟩,
          ⟨3, .ofCredit (creditAt 42)⟩]).pending_agreement.isSome = true :=
  ⟨(genesis_threshold_exactness esC (creditAt 42) []
      [⟨1, .ofCredit (creditAt 42)⟩, ⟨2, .ofCredit (creditAt 42)⟩,
        ⟨3, .ofCredit (creditAt 42)⟩] rfl (by decide)).1.1,
   (genesis_threshold_exactness esC (creditAt 42) []
      [⟨1, .ofCredit (creditAt 42)⟩, ⟨2, .ofCredit (creditAt 42)⟩,
        ⟨3, .ofCredit (creditAt 42)⟩] rfl (by decide)).2.1⟩

/-- C4 as stated is false on the code: `assume_adult_duties` only guards on the
stage being exactly `Adult`, so applying `AssumeAdultDuties` to an Elder node
demotes it to `Adult` and returns a register-wallet operation, instead of being
the claimed later-stage no-op. -/
theorem assume_adult_at_elder_demotes :
    (assume_adult_duties ⟨⟨false, 7⟩, .Elder ⟨[]⟩⟩).1.stage = .Adult ∧
    (assume_adult_duties ⟨⟨false, 7⟩, .Elder ⟨[]⟩⟩).2 ≠ .ok [] := by decide

/-- C4 (amended): the re-entrancy guards are per-handler rather than uniformly
"target stage or any later stage".  `AssumeAdultDuties` always leaves the node
at `Adult` and a second application is a no-op (the claimed idempotency pair);
it is a silent no-op only when the stage is exactly `Adult`.
`AssumeElderDuties` is a no-op at `Elder`, `AssumingElderDuties` and
`AwaitingGenesisThreshold`; `ReceiveGenesisProposal` at `AccumulatingGenesis`
and `Elder`; `ReceiveGenesisAccumulation` and `InitSectionWallet` at `Elder`. -/
theorem reentrancy_guards (ni : NodeInfo) (st : Stage) :
    ((assume_adult_duties ⟨ni, st⟩).1.stage = .Adult
      ∧ assume_adult_duties (assume_adult_duties ⟨ni, st⟩).1 =
          ((assume_adult_duties ⟨ni, st⟩).1, .ok []))
  ∧ (st = .Adult → assume_adult_duties ⟨ni, st⟩ = (⟨ni, st⟩, .ok []))
  ∧ (∀ snap ek, beginGuard st = true →
      begin_transition_to_elder ⟨ni, st⟩ snap ek = (⟨ni, st⟩, .ok []))
  ∧ (∀ c s b, st = .Genesis (.AccumulatingGenesis b) →
      receive_genesis_proposal ⟨ni, st⟩ c s = (⟨ni, st⟩, .ok []))
  ∧ (∀ c s sub, st = .Elder sub →
      receive_genesis_proposal ⟨ni, st⟩ c s = (⟨ni, st⟩, .ok []))
  ∧ (∀ sc s env sub, st = .Elder sub →
      receive_genesis_accumulation ⟨ni, st⟩ sc s env = (⟨ni, st⟩, .ok []))
  ∧ (∀ wi g env sub, st = .Elder sub →
      finish_transition_to_elder ⟨ni, st⟩ wi g env = (⟨ni, st⟩, .ok [])) := by
  refine ⟨⟨?_, ?_⟩, ?_, ?_, ?_, ?_, ?_, ?_⟩
  · cases st <;> rfl
  · cases st <;> rfl
  · rintro rfl; rfl
  · intro snap ek h
    cases st with
    | Elder sub => simp [begin_transition_to_elder, beginGuard]
    | AssumingElderDuties es queue => simp [begin_transition_to_elder, beginGuard]
    | Genesis g =>
      cases g with
      | AwaitingGenesisThreshold es queue => simp [begin_transition_to_elder, beginGuard]
      | ProposingGenesis b => simp [beginGuard] at h
      | AccumulatingGenesis b => simp [beginGuard] at h
    | Infant => simp [beginGuard] at h
    | Adult => simp [beginGuard] at h
  · rintro c s b rfl; rfl
  · rintro c s sub rfl; rfl
  · rintro sc s env sub rfl; rfl
  · rintro wi g env sub rfl; rfl

theorem reentrancy_guards_witness :
    assume_adult_duties ⟨⟨false, 7⟩, .Adult⟩ = (⟨⟨false, 7⟩, .Adult⟩, .ok []) :=
  (reentrancy_guards ⟨false, 7⟩ .Adult).2.1 rfl

theorem count_in_others (xs : List Nat) (o : Op) (ho : ∀ t, o ≠ Op.other t) :
    (xs.map Op.other).count o = 0 := by
  rw [List.count_eq_zero]
  intro h
  rcases List.mem_map.mp h with ⟨t, _, heq⟩
  exact ho t heq.symm

/-- C5: duties enqueued in order d1, d2, d3 while the Stage is transitional are
kept in FIFO order; the queue survives the AwaitingGenesisThreshold → Proposing
and (via `add`) the Proposing → Accumulating transitions; finalization feeds
the newly built subsystem exactly the queued duties in that order, and the two
bookkeeping registration operations (add own node id, set own reward wallet)
come after all replayed duty outputs and occur exactly once each. -/
theorem queue_replay_ordering (ni : NodeInfo) (env : Env) (es : ElderState)
    (hsign : es.signOk = true) (d1 d2 d3 : ElderDuty) (c : Credit) (s : SignatureShare)
    (wi : Option CreditProof → Nat) (g : Option CreditProof) :
    (processRunAsElder (processRunAsElder (processRunAsElder
        ⟨ni, .Genesis (.AwaitingGenesisThreshold es [])⟩ d1 env).1 d2 env).1 d3 env).1 =
      ⟨ni, .Genesis (.AwaitingGenesisThreshold es [d1, d2, d3])⟩
  ∧ (receive_genesis_proposal ⟨ni, .Genesis (.AwaitingGenesisThreshold es [d1, d2, d3])⟩ c s).1 =
      ⟨ni, .Genesis (.ProposingGenesis ⟨es, c,
        sigInsert (sigInsert [] s.index s.share) es.shareIndex (.ofCredit c),
        none, [d1, d2, d3]⟩)⟩
  ∧ (∀ (b : GenesisProposal) (sg : SignatureShare), (b.add sg).queued_ops = b.queued_ops)
  ∧ (∀ (b : GenesisAccumulation) (sg : SignatureShare), (b.add sg).queued_ops = b.queued_ops)
  ∧ (∀ (b : GenesisAccumulation),
      finish_transition_to_elder ⟨ni, .Genesis (.AccumulatingGenesis b)⟩ wi g env =
        (⟨ni, .Elder ⟨b.queued_ops⟩⟩,
         .ok ((env.initiateOps g).map Op.other
           ++ (b.queued_ops.flatMap env.dutyOps).map Op.other
           ++ [Op.rewardAddNode b.elder_state.nodeName,
               Op.rewardSetNodeWallet b.elder_state.nodeName ni.reward_key])))
  ∧ (∀ (es2 : ElderState) (queue : List ElderDuty),
      finish_transition_to_elder ⟨ni, .AssumingElderDuties es2 queue⟩ wi g env =
        (⟨ni, .Elder ⟨queue⟩⟩,
         .ok ((env.initiateOps g).map Op.other
           ++ (queue.flatMap env.dutyOps).map Op.other
           ++ [Op.rewardAddNode es2.nodeName,
               Op.rewardSetNodeWallet es2.nodeName ni.reward_key])))
  ∧ (∀ (xs ys : List Nat) (n w : Nat),
      (xs.map Op.other ++ ys.map Op.other
        ++ [Op.rewardAddNode n, Op.rewardSetNodeWallet n w]).count (Op.rewardAddNode n) = 1
      ∧ (xs.map Op.other ++ ys.map Op.other
        ++ [Op.rewardAddNode n, Op.rewardSetNodeWallet n w]).count
          (Op.rewardSetNodeWallet n w) = 1) := by
  refine ⟨rfl, ?_, ?_, ?_, fun b => rfl, fun es2 queue => rfl, ?_⟩
  · simp [receive_genesis_proposal, ElderState.sign, hsign]
  · exact proposal_add_queued_ops
  · exact accumulation_add_queued_ops
  · intro xs ys n w
    constructor
    · rw [List.count_append, List.count_append,
          count_in_others xs _ (by intro t h; cases h),
          count_in_others ys _ (by intro t h; cases h)]
      simp
    · rw [List.count_append, List.count_append,
          count_in_others xs _ (by intro t h; cases h),
          count_in_others ys _ (by intro t h; cases h)]
      simp

theorem queue_replay_ordering_witness :
    (processRunAsElder (processRunAsElder (processRunAsElder
        ⟨⟨false, 7⟩, .Genesis (.AwaitingGenesisThreshold esC [])⟩ 4 envC).1 5 envC).1 6 envC).1 =
      ⟨⟨false, 7⟩, .Genesis (.AwaitingGenesisThreshold esC [4, 5, 6])⟩ :=
  (queue_replay_ordering ⟨false, 7⟩ envC esC rfl 4 5 6 (creditAt 42)
    ⟨3, .ofCredit (creditAt 42)⟩ (fun _ => 0) none).1

/-- C7 as stated is false on the code: a node whose snapshot reports a non-first
section in exactly the otherwise-genesis-originator situation (Adult, five
elders, short section chain) does not fail with an invalid-transition error —
it proceeds with the ordinary promotion, entering `AssumingElderDuties` and
returning the section-wallet-history query. -/
theorem nonfirst_section_promotion_no_error :
    begin_transition_to_elder ⟨⟨false, 7⟩, .Adult⟩ ⟨false, 5, 3⟩ esC =
      (⟨⟨false, 7⟩, .AssumingElderDuties esC []⟩, .ok [.sendWalletQuery 42]) := by decide

/-- C7 (amended): with the signing collaborator succeeding,
`begin_transition_to_elder` returns an error exactly when the node is still
`Infant` and not flagged as the designated genesis node; a node whose snapshot
reports a non-first section never errors — from `Adult` it proceeds with the
ordinary promotion and returns the wallet-history query. -/
theorem begin_transition_error_iff (ni : NodeInfo) (st : Stage) (snap : Snapshot)
    (ek : ElderState) (hsign : ek.signOk = true) :
    ((∃ e, (begin_transition_to_elder ⟨ni, st⟩ snap ek).2 = .error e) ↔
        (st = .Infant ∧ ni.genesis = false))
  ∧ (snap.firstSection = false → st = .Adult →
      begin_transition_to_elder ⟨ni, st⟩ snap ek =
        (⟨ni, .AssumingElderDuties ek []⟩, .ok [.sendWalletQuery ek.sectionKey])) := by
  constructor
  · cases st with
    | Infant =>
      cases hg : ni.genesis with
      | false => simp [begin_transition_to_elder, beginGuard, Stage.isInfant, hg]
      | true =>
        simp only [begin_transition_to_elder, beginGuard, Stage.isInfant, Stage.isAdult, hg]
        simp
        split <;> simp
    | Adult =>
      simp only [begin_transition_to_elder, beginGuard, Stage.isInfant, Stage.isAdult]
      simp
      intro x
      split
      · simp [ElderState.sign, hsign]
      · split <;> simp
    | Genesis g =>
      cases g with
      | AwaitingGenesisThreshold es queue =>
        simp [begin_transition_to_elder, beginGuard]
      | ProposingGenesis b =>
        simp only [begin_transition_to_elder, beginGuard, Stage.isInfant, Stage.isAdult]
        simp
        intro x
        split <;> simp
      | AccumulatingGenesis b =>
        simp only [begin_transition_to_elder, beginGuard, Stage.isInfant, Stage.isAdult]
        simp
        intro x
        split <;> simp
    | AssumingElderDuties es queue => simp [begin_transition_to_elder, beginGuard]
    | Elder sub => simp [begin_transition_to_elder, beginGuard]
  · intro hfs hst
    subst hst
    simp [begin_transition_to_elder, beginGuard, Stage.isInfant, Stage.isAdult, hfs]

theorem begin_transition_error_iff_witness :
    ∃ e, (begin_transition_to_elder ⟨⟨false, 7⟩, .Infant⟩ ⟨true, 1, 1⟩ esC).2 = .error e :=
  (begin_transition_error_iff ⟨false, 7⟩ .Infant ⟨true, 1, 1⟩ esC rfl).1.mpr ⟨rfl, rfl⟩

theorem notGenesis_assume_adult (nd : Node) (h : nd.stage.notGenesis = true) :
    (assume_adult_duties nd).1.stage.notGenesis = true := by
  rcases nd with ⟨ni, st⟩
  cases st <;> simp_all [assume_adult_duties, Stage.notGenesis]

theorem notGenesis_begin_transition (nd : Node) (snap : Snapshot) (ek : ElderState)
    (hfs : snap.firstSection = false) (h : nd.stage.notGenesis = true) :
    (begin_transition_to_elder nd snap ek).1.stage.notGenesis = true := by
  rcases nd with ⟨ni, st⟩
  cases st with
  | Infant =>
    by_cases hg : ni.genesis <;>
      simp [begin_transition_to_elder, beginGuard, Stage.isInfant, Stage.isAdult,
            hfs, hg, Stage.notGenesis]
  | Adult =>
    simp [begin_transition_to_elder, beginGuard, Stage.isInfant, Stage.isAdult,
          hfs, Stage.notGenesis]
  | Genesis g => simp [Stage.notGenesis] at h
  | AssumingElderDuties es queue =>
    simp [begin_transition_to_elder, beginGuard, Stage.notGenesis]
  | Elder sub => simp [begin_transition_to_elder, beginGuard, Stage.notGenesis]

theorem notGenesis_recv_proposal (nd : Node) (c : Credit) (s : SignatureShare)
    (h : nd.stage.notGenesis = true) :
    (receive_genesis_proposal nd c s).1.stage.notGenesis = true := by
  rcases nd with ⟨ni, st⟩
  cases st <;> simp_all [receive_genesis_proposal, Stage.notGenesis]

theorem notGenesis_recv_accum (nd : Node) (sc : SignedCredit) (s : SignatureShare)
    (env : Env) (h : nd.stage.notGenesis = true) :
    (receive_genesis_accumulation nd sc s env).1.stage.notGenesis = true := by
  rcases nd with ⟨ni, st⟩
  cases st <;> simp_all [receive_genesis_accumulation, Stage.notGenesis]

theorem notGenesis_init_wallet (nd : Node) (wi : Option CreditProof → Nat)
    (g : Option CreditProof) (env : Env) (h : nd.stage.notGenesis = true) :
    (finish_transition_to_elder nd wi g env).1.stage.notGenesis = true := by
  rcases nd with ⟨ni, st⟩
  cases st with
  | Infant =>
    by_cases hg : ni.genesis <;>
      simp [finish_transition_to_elder, finishFrom, hg, Stage.notGenesis]
  | Adult => simp [finish_transition_to_elder, Stage.notGenesis]
  | Genesis g2 => simp [Stage.notGenesis] at h
  | AssumingElderDuties es queue =>
    simp [finish_transition_to_elder, finishFrom, Stage.notGenesis]
  | Elder sub => simp [finish_transition_to_elder, Stage.notGenesis]

theorem notGenesis_elder_duty (nd : Node) (d : ElderDuty) (env : Env)
    (h : nd.stage.notGenesis = true) :
    (processRunAsElder nd d env).1.stage.notGenesis = true := by
  rcases nd with ⟨ni, st⟩
  cases st <;> simp_all [processRunAsElder, Stage.notGenesis]

theorem notGenesis_reg_wallet (nd : Node) (w : Nat) (h : nd.stage.notGenesis = true) :
    (register_wallet nd w).1.stage.notGenesis = true := by
  rcases nd with ⟨ni, st⟩
  cases st <;> simp_all [register_wallet, Stage.notGenesis]

theorem notGenesis_initiate_change (nd : Node) (env : Env)
    (h : nd.stage.notGenesis = true) :
    (initiate_elder_change nd env).1.stage.notGenesis = true := by
  rcases nd with ⟨ni, st⟩
  cases st <;> simp_all [initiate_elder_change, Stage.notGenesis]

theorem notGenesis_finish_change (nd : Node) (env : Env)
    (h : nd.stage.notGenesis = true) :
    (finish_elder_change nd env).1.stage.notGenesis = true := by
  rcases nd with ⟨ni, st⟩
  cases st <;> simp_all [finish_elder_change, Stage.notGenesis]

theorem LStep.preserves_notGenesis {nd nd' : Node} (h : LStep nd nd')
    (hn : nd.stage.notGenesis = true) : nd'.stage.notGenesis = true := by
  cases h with
  | assumeAdult => exact notGenesis_assume_adult nd hn
  | assumeElder snap ek hfs => exact notGenesis_begin_transition nd snap ek hfs hn
  | recvProposal c s => exact notGenesis_recv_proposal nd c s hn
  | recvAccum sc s env => exact notGenesis_recv_accum nd sc s env hn
  | initWallet wi env => exact notGenesis_init_wallet nd wi none env hn
  | elderDuty d env => exact notGenesis_elder_duty nd d env hn
  | regWallet w => exact notGenesis_reg_wallet nd w hn
  | initiateChange env => exact notGenesis_initiate_change nd env hn
  | finishChange env => exact notGenesis_finish_change nd env hn

/-- C6: along every sequence of lifecycle events processed by a node whose
network-state snapshot reports a non-empty section prefix, starting from the
initial `Infant` stage, the node's Stage is never `ProposingGenesis` nor
`AccumulatingGenesis` (indeed never any genesis sub-stage). -/
theorem genesis_exclusivity (ni : NodeInfo) (nd : Node)
    (h : Relation.ReflTransGen LStep ⟨ni, .Infant⟩ nd) :
    nd.stage.inGenesisRound = false := by
  have hng : nd.stage.notGenesis = true := by
    induction h with
    | refl => rfl
    | tail _ hstep ih => exact hstep.preserves_notGenesis ih
  rcases nd with ⟨ni2, st⟩
  cases st <;> simp_all [Stage.notGenesis, Stage.inGenesisRound]

theorem genesis_exclusivity_witness :
    (Node.mk ⟨false, 7⟩ .Infant).stage.inGenesisRound = false :=
  genesis_exclusivity ⟨false, 7⟩ ⟨⟨false, 7⟩, .Infant⟩ Relation.ReflTransGen.refl

/-- C8 fails in the code: in `receive_genesis_accumulation`, when the incoming
share completes the round-2 threshold the code mutates the round in place
(`bootstrap.add(sig)` inserts the share, `pending_agreement.take()` clears the
just-materialized aggregate) before the fallible signing of the final proof;
if that signing fails the handler returns an error while the observable Stage
has changed — the incoming share is recorded and the aggregate is gone.  The
in-source TODO at the `take()` acknowledges exactly this hazard.  Here a node
in `AccumulatingGenesis` (threshold 0, so one share completes the round) with a
failing signer errors on a fresh share while its Stage changes. -/
theorem accumulation_error_mutates_stage :
    (receive_genesis_accumulation
        ⟨⟨false, 7⟩, .Genesis (.AccumulatingGenesis ⟨⟨1, 42, 9, 0, false⟩,
          ⟨creditAt 42, 0⟩, [], none, []⟩)⟩
        ⟨creditAt 42, 0⟩ ⟨3, .ofSigned ⟨creditAt 42, 0⟩⟩ envC).2 =
      .error .signingFailed ∧
    (receive_genesis_accumulation
        ⟨⟨false, 7⟩, .Genesis (.AccumulatingGenesis ⟨⟨1, 42, 9, 0, false⟩,
          ⟨creditAt 42, 0⟩, [], none, []⟩)⟩
        ⟨creditAt 42, 0⟩ ⟨3, .ofSigned ⟨creditAt 42, 0⟩⟩ envC).1.stage ≠
      .Genesis (.AccumulatingGenesis ⟨⟨1, 42, 9, 0, false⟩,
          ⟨creditAt 42, 0⟩, [], none, []⟩) := by
  constructor
  · rfl
  · decide

theorem gInv_applyAt (κ : Nat) (st : GState) (i : Nat)
    (f : Node → Node × Except Err (List Op))
    (hf : ∀ nd ∈ st.nodes, stageOk κ nd.stage →
      stageOk κ (f nd).1.stage ∧ ∀ m ∈ resultMsgs (f nd).2, msgOk κ m)
    (hinv : gInv κ st) : gInv κ (applyAt st i f) := by
  obtain ⟨hpool, hnodes⟩ := hinv
  unfold applyAt
  cases hget : st.nodes.get? i with
  | none => exact ⟨hpool, hnodes⟩
  | some nd =>
    have hmem : nd ∈ st.nodes := List.get?_mem hget
    have hnd := hf nd hmem (hnodes nd hmem)
    constructor
    · intro m hm
      rcases List.mem_append.mp hm with h | h
      · exact hpool m h
      · exact hnd.2 m h
    · intro x hx
      rcases List.mem_or_eq_of_mem_set hx with h | h
      · exact hnodes x h
      · rw [h]; exact hnd.1

theorem proposal_add_fields (b : GenesisProposal) (s : SignatureShare) :
    (b.add s).proposal = b.proposal ∧ (b.add s).elder_state = b.elder_state ∧
    (∀ e ∈ (b.add s).signatures, e ∈ b.signatures ∨ e = (s.index, s.share)) ∧
    (∀ sc, (b.add s).pending_agreement = some sc →
      b.pending_agreement = some sc ∨ sc.credit = b.proposal) := by
  unfold GenesisProposal.add
  split
  · exact ⟨rfl, rfl, fun e he => Or.inl he, fun sc h => Or.inl h⟩
  · split
    · refine ⟨rfl, rfl, ?_, ?_⟩
      · intro e he
        rcases mem_sigInsert _ _ _ _ he with h | h
        · exact Or.inr h
        · exact Or.inl h
      · intro sc h
        simp only [Option.some.injEq] at h
        right
        rw [← h]
    · refine ⟨rfl, rfl, ?_, fun sc h => Or.inl h⟩
      intro e he
      rcases mem_sigInsert _ _ _ _ he with h | h
      · exact Or.inr h
      · exact Or.inl h

theorem accumulation_add_fields (b : GenesisAccumulation) (s : SignatureShare) :
    (b.add s).agreed_proposal = b.agreed_proposal ∧ (b.add s).elder_state = b.elder_state ∧
    (∀ e ∈ (b.add s).signatures, e ∈ b.signatures ∨ e = (s.index, s.share)) ∧
    (∀ p, (b.add s).pending_agreement = some p →
      b.pending_agreement = some p ∨ p.signedCredit = b.agreed_proposal) := by
  unfold GenesisAccumulation.add
  split
  · exact ⟨rfl, rfl, fun e he => Or.inl he, fun p h => Or.inl h⟩
  · split
    · refine ⟨rfl, rfl, ?_, ?_⟩
      · intro e he
        rcases mem_sigInsert _ _ _ _ he with h | h
        · exact Or.inr h
        · exact Or.inl h
      · intro p h
        simp only [Option.some.injEq] at h
        right
        rw [← h]
    · refine ⟨rfl, rfl, ?_, fun p h => Or.inl h⟩
      intro e he
      rcases mem_sigInsert _ _ _ _ he with h | h
      · exact Or.inr h
      · exact Or.inl h

theorem resultMsgs_finishFrom (nd : Node) (es : ElderState) (q : List ElderDuty)
    (g : Option CreditProof) (env : Env) :
    resultMsgs (finishFrom nd es q g env).2 = [] := by
  simp [finishFrom, resultMsgs, List.filterMap_append, List.filterMap_map,
        Function.comp, opToMsg]

theorem gok_assume_adult (κ : Nat) (nd : Node) (h : stageOk κ nd.stage) :
    stageOk κ (assume_adult_duties nd).1.stage ∧
    ∀ m ∈ resultMsgs (assume_adult_duties nd).2, msgOk κ m := by
  rcases nd with ⟨ni, st⟩
  cases st <;> simp [assume_adult_duties, stageOk, resultMsgs, opToMsg]

theorem gok_begin_transition (κ : Nat) (nd : Node) (snap : Snapshot) (ek : ElderState)
    (hκ : ek.sectionKey = κ) (h : stageOk κ nd.stage) :
    stageOk κ (begin_transition_to_elder nd snap ek).1.stage ∧
    ∀ m ∈ resultMsgs (begin_transition_to_elder nd snap ek).2, msgOk κ m := by
  unfold begin_transition_to_elder
  split
  · exact ⟨h, by simp [resultMsgs]⟩
  · split
    · exact ⟨h, by simp [resultMsgs]⟩
    · split
      · cases hs : ek.signOk with
        | false =>
          simp only [ElderState.sign, hs, Bool.false_eq_true, if_false]
          exact ⟨h, by simp [resultMsgs]⟩
        | true =>
          simp only [ElderState.sign, hs, if_true]
          constructor
          · simp only [stageOk]
            refine ⟨by simp [creditAt, MAX_SUPPLY, hκ], ?_, by simp⟩
            intro e he
            rcases mem_sigInsert _ _ _ _ he with h2 | h2
            · rw [h2]; simp [payloadOk, creditAt, MAX_SUPPLY, hκ]
            · simp at h2
          · intro m hm
            simp only [resultMsgs, List.filterMap, opToMsg] at hm
            simp at hm
            rw [hm]
            exact ⟨by simp [creditAt, MAX_SUPPLY, hκ], rfl⟩
      · split
        · exact ⟨trivial, by simp [resultMsgs]⟩
        · exact ⟨trivial, by simp [resultMsgs, opToMsg]⟩

theorem gok_recv_proposal (κ : Nat) (nd : Node) (c : Credit) (s : SignatureShare)
    (hc : c = creditAt κ) (hss : s.share = .ofCredit c) (h : stageOk κ nd.stage) :
    stageOk κ (receive_genesis_proposal nd c s).1.stage ∧
    ∀ m ∈ resultMsgs (receive_genesis_proposal nd c s).2, msgOk κ m := by
  rcases nd with ⟨ni, st⟩
  cases st with
  | Infant => exact ⟨trivial, by simp [receive_genesis_proposal, resultMsgs]⟩
  | Adult => exact ⟨trivial, by simp [receive_genesis_proposal, resultMsgs]⟩
  | AssumingElderDuties es queue =>
    exact ⟨trivial, by simp [receive_genesis_proposal, resultMsgs]⟩
  | Elder sub => exact ⟨trivial, by simp [receive_genesis_proposal, resultMsgs]⟩
  | Genesis g =>
    cases g with
    | AwaitingGenesisThreshold es queue =>
      cases hs : es.signOk with
      | false =>
        simp only [receive_genesis_proposal, ElderState.sign, hs, Bool.false_eq_true, if_false]
        exact ⟨h, by simp [resultMsgs]⟩
      | true =>
        simp only [receive_genesis_proposal, ElderState.sign, hs, if_true]
        constructor
        · simp only [stageOk]
          refine ⟨hc, ?_, by simp⟩
          intro e he
          rcases mem_sigInsert _ _ _ _ he with h2 | h2
          · rw [h2]; simp [payloadOk, hc]
          · rcases mem_sigInsert _ _ _ _ h2 with h3 | h3
            · rw [h3]; simp [payloadOk, hss, hc]
            · simp at h3
        · intro m hm
          simp only [resultMsgs, List.filterMap, opToMsg] at hm
          simp at hm
          rw [hm]
          exact ⟨hc, rfl⟩
    | ProposingGenesis b =>
      obtain ⟨hb1, hb2, hb3⟩ := h
      obtain ⟨ha1, ha2, ha3, ha4⟩ := proposal_add_fields b s
      have hsigs : ∀ e ∈ (b.add s).signatures, payloadOk κ e.2 := by
        intro e he
        rcases ha3 e he with h2 | h2
        · exact hb2 e h2
        · rw [h2]; simp [payloadOk, hss, hc]
      have hpend : ∀ sc, (b.add s).pending_agreement = some sc → sc.credit = creditAt κ := by
        intro sc h2
        rcases ha4 sc h2 with h3 | h3
        · exact hb3 sc h3
        · rw [h3, hb1]
      simp only [receive_genesis_proposal]
      cases hpa : (b.add s).pending_agreement with
      | none =>
        simp only [hpa]
        exact ⟨⟨ha1 ▸ hb1, hsigs, by rw [hpa]; intro sc h2; cases h2⟩, by simp [resultMsgs]⟩
      | some sc =>
        have hsc : sc.credit = creditAt κ := hpend sc hpa
        simp only [hpa]
        cases hs : (b.add s).elder_state.signOk with
        | false =>
          simp only [ElderState.sign, hs, Bool.false_eq_true, if_false]
          exact ⟨⟨ha1 ▸ hb1, hsigs, hpend⟩, by simp [resultMsgs]⟩
        | true =>
          simp only [ElderState.sign, hs, if_true]
          constructor
          · simp only [stageOk]
            refine ⟨hsc, ?_, by simp⟩
            intro e he
            rcases mem_sigInsert _ _ _ _ he with h2 | h2
            · rw [h2]; simp [payloadOk, hsc]
            · simp at h2
          · intro m hm
            simp only [resultMsgs, List.filterMap, opToMsg] at hm
            simp at hm
            rw [hm]
            exact ⟨hsc, rfl⟩
    | AccumulatingGenesis b =>
      exact ⟨h, by simp [receive_genesis_proposal, resultMsgs]⟩

theorem gok_finish (κ : Nat) (nd : Node) (wi : Option CreditProof → Nat)
    (g : Option CreditProof) (env : Env) (h : stageOk κ nd.stage) :
    stageOk κ (finish_transition_to_elder nd wi g env).1.stage ∧
    ∀ m ∈ resultMsgs (finish_transition_to_elder nd wi g env).2, msgOk κ m := by
  rcases nd with ⟨ni, st⟩
  cases st with
  | Infant =>
    by_cases hg : ni.genesis <;>
      simp [finish_transition_to_elder, finishFrom, hg, stageOk, resultMsgs,
        List.filterMap_append, List.filterMap_map, Function.comp, opToMsg]
  | Adult => exact ⟨trivial, by simp [finish_transition_to_elder, resultMsgs]⟩
  | AssumingElderDuties es queue =>
    refine ⟨trivial, ?_⟩
    simp [finish_transition_to_elder, finishFrom, resultMsgs,
      List.filterMap_append, List.filterMap_map, Function.comp, opToMsg]
  | Elder sub => exact ⟨trivial, by simp [finish_transition_to_elder, resultMsgs]⟩
  | Genesis g2 =>
    cases g2 with
    | AwaitingGenesisThreshold es queue =>
      exact ⟨h, by simp [finish_transition_to_elder, resultMsgs]⟩
    | ProposingGenesis b =>
      exact ⟨h, by simp [finish_transition_to_elder, resultMsgs]⟩
    | AccumulatingGenesis b =>
      refine ⟨trivial, ?_⟩
      simp [finish_transition_to_elder, finishFrom, resultMsgs,
        List.filterMap_append, List.filterMap_map, Function.comp, opToMsg]

theorem gok_recv_accum (κ : Nat) (nd : Node) (sc : SignedCredit) (s : SignatureShare)
    (env : Env) (hsc : sc.credit = creditAt κ) (hss : s.share = .ofSigned sc)
    (h : stageOk κ nd.stage) :
    stageOk κ (receive_genesis_accumulation nd sc s env).1.stage ∧
    ∀ m ∈ resultMsgs (receive_genesis_accumulation nd sc s env).2, msgOk κ m := by
  rcases nd with ⟨ni, st⟩
  cases st with
  | Infant => exact ⟨trivial, by simp [receive_genesis_accumulation, resultMsgs]⟩
  | Adult => exact ⟨trivial, by simp [receive_genesis_accumulation, resultMsgs]⟩
  | AssumingElderDuties es queue =>
    exact ⟨trivial, by simp [receive_genesis_accumulation, resultMsgs]⟩
  | Elder sub => exact ⟨trivial, by simp [receive_genesis_accumulation, resultMsgs]⟩
  | Genesis g =>
    cases g with
    | AwaitingGenesisThreshold es queue =>
      exact ⟨h, by simp [receive_genesis_accumulation, resultMsgs]⟩
    | ProposingGenesis b =>
      cases hs : b.elder_state.signOk with
      | false =>
        simp only [receive_genesis_accumulation, ElderState.sign, hs, Bool.false_eq_true,
          if_false]
        exact ⟨h, by simp [resultMsgs]⟩
      | true =>
        simp only [receive_genesis_accumulation, ElderState.sign, hs, if_true]
        constructor
        · simp only [stageOk]
          refine ⟨hsc, ?_, by simp⟩
          intro e he
          rcases mem_sigInsert _ _ _ _ he with h2 | h2
          · rw [h2]; simp [payloadOk, hsc]
          · rcases mem_sigInsert _ _ _ _ h2 with h3 | h3
            · rw [h3]; simp only [payloadOk]
              rw [hss]
              simp [payloadOk, hsc]
            · simp at h3
        · simp [resultMsgs]
    | AccumulatingGenesis b =>
      obtain ⟨hb1, hb2, hb3⟩ := h
      obtain ⟨ha1, ha2, ha3, ha4⟩ := accumulation_add_fields b s
      have hsigs : ∀ e ∈ (b.add s).signatures, payloadOk κ e.2 := by
        intro e he
        rcases ha3 e he with h2 | h2
        · exact hb2 e h2
        · rw [h2]; simp [payloadOk, hss, hsc]
      have hpend : ∀ p, (b.add s).pending_agreement = some p →
          p.signedCredit.credit = creditAt κ := by
        intro p h2
        rcases ha4 p h2 with h3 | h3
        · exact hb3 p h3
        · rw [h3]; exact hb1
      simp only [receive_genesis_accumulation]
      cases hpa : (b.add s).pending_agreement with
      | none =>
        simp only [hpa]
        refine ⟨⟨ha1 ▸ hb1, hsigs, ?_⟩, by simp [resultMsgs]⟩
        rw [hpa]
        intro p h2
        cases h2
      | some proof =>
        have hproof : proof.signedCredit.credit = creditAt κ := hpend proof hpa
        simp only [hpa]
        cases hs : (b.add s).elder_state.signOk with
        | false =>
          simp only [ElderState.sign, hs, Bool.false_eq_true, if_false]
          refine ⟨⟨ha1 ▸ hb1, hsigs, ?_⟩, by simp [resultMsgs]⟩
          intro p h2
          cases h2
        | true =>
          simp only [ElderState.sign, hs, if_true]
          constructor
          · apply (gok_finish κ _ _ (some proof) env ?_).1
            simp only [stageOk]
            refine ⟨ha1 ▸ hb1, ?_, ?_⟩
            · intro e he
              rcases mem_sigInsert _ _ _ _ he with h2 | h2
              · rw [h2]; simp [payloadOk, hproof]
              · exact hsigs e h2
            · intro p h2
              cases h2
          · intro m hm
            have := (gok_finish κ _ (fun _ => proof.debitingReplicasKeys) (some proof) env ?_).2 m hm
            · exact this
            · simp only [stageOk]
              refine ⟨ha1 ▸ hb1, ?_, ?_⟩
              · intro e he
                rcases mem_sigInsert _ _ _ _ he with h2 | h2
                · rw [h2]; simp [payloadOk, hproof]
                · exact hsigs e h2
              · intro p h2
                cases h2

theorem gok_elder_duty (κ : Nat) (nd : Node) (d : ElderDuty) (env : Env)
    (h : stageOk κ nd.stage) :
    stageOk κ (processRunAsElder nd d env).1.stage ∧
    ∀ m ∈ resultMsgs (processRunAsElder nd d env).2, msgOk κ m := by
  rcases nd with ⟨ni, st⟩
  cases st with
  | Infant => exact ⟨trivial, by simp [processRunAsElder, resultMsgs]⟩
  | Adult => exact ⟨trivial, by simp [processRunAsElder, resultMsgs]⟩
  | AssumingElderDuties es queue =>
    exact ⟨trivial, by simp [processRunAsElder, resultMsgs]⟩
  | Elder sub =>
    refine ⟨trivial, ?_⟩
    simp [processRunAsElder, resultMsgs, List.filterMap_map, Function.comp, opToMsg]
  | Genesis g =>
    cases g with
    | AwaitingGenesisThreshold es queue =>
      exact ⟨trivial, by simp [processRunAsElder, resultMsgs]⟩
    | ProposingGenesis b =>
      obtain ⟨hb1, hb2, hb3⟩ := h
      exact ⟨⟨hb1, hb2, hb3⟩, by simp [processRunAsElder, resultMsgs]⟩
    | AccumulatingGenesis b =>
      obtain ⟨hb1, hb2, hb3⟩ := h
      exact ⟨⟨hb1, hb2, hb3⟩, by simp [processRunAsElder, resultMsgs]⟩

theorem gok_reg_wallet (κ : Nat) (nd : Node) (w : Nat) (h : stageOk κ nd.stage) :
    stageOk κ (register_wallet nd w).1.stage ∧
    ∀ m ∈ resultMsgs (register_wallet nd w).2, msgOk κ m := by
  rcases nd with ⟨ni, st⟩
  cases st <;> simp_all [register_wallet, stageOk, resultMsgs, opToMsg]

theorem gok_initiate_change (κ : Nat) (nd : Node) (env : Env) (h : stageOk κ nd.stage) :
    stageOk κ (initiate_elder_change nd env).1.stage ∧
    ∀ m ∈ resultMsgs (initiate_elder_change nd env).2, msgOk κ m := by
  rcases nd with ⟨ni, st⟩
  cases st <;>
    simp_all [initiate_elder_change, stageOk, resultMsgs, List.filterMap_map,
      Function.comp, opToMsg]

theorem gok_finish_change (κ : Nat) (nd : Node) (env : Env) (h : stageOk κ nd.stage) :
    stageOk κ (finish_elder_change nd env).1.stage ∧
    ∀ m ∈ resultMsgs (finish_elder_change nd env).2, msgOk κ m := by
  rcases nd with ⟨ni, st⟩
  cases st <;>
    simp_all [finish_elder_change, stageOk, resultMsgs, List.filterMap_map,
      Function.comp, opToMsg]

theorem GStep.preserves_gInv {κ : Nat} {st st' : GState} (h : GStep κ st st')
    (hinv : gInv κ st) : gInv κ st' := by
  cases h with
  | assumeAdult i =>
    exact gInv_applyAt κ st i _ (fun nd _ hs => gok_assume_adult κ nd hs) hinv
  | assumeElder i snap ek hκ =>
    exact gInv_applyAt κ st i _ (fun nd _ hs => gok_begin_transition κ nd snap ek hκ hs) hinv
  | deliverPropose i c s hm =>
    have hmk := hinv.1 _ hm
    exact gInv_applyAt κ st i _
      (fun nd _ hs => gok_recv_proposal κ nd c s hmk.1 hmk.2 hs) hinv
  | deliverAccum i sc s env hm =>
    have hmk := hinv.1 _ hm
    exact gInv_applyAt κ st i _
      (fun nd _ hs => gok_recv_accum κ nd sc s env hmk.1 hmk.2 hs) hinv
  | initWallet i wi env =>
    exact gInv_applyAt κ st i _ (fun nd _ hs => gok_finish κ nd wi none env hs) hinv
  | elderDuty i d env =>
    exact gInv_applyAt κ st i _ (fun nd _ hs => gok_elder_duty κ nd d env hs) hinv
  | regWallet i w =>
    exact gInv_applyAt κ st i _ (fun nd _ hs => gok_reg_wallet κ nd w hs) hinv
  | initiateChange i env =>
    exact gInv_applyAt κ st i _ (fun nd _ hs => gok_initiate_change κ nd env hs) hinv
  | finishChange i env =>
    exact gInv_applyAt κ st i _ (fun nd _ hs => gok_finish_change κ nd env hs) hinv

theorem payloadOk_creditId {κ : Nat} {p : Payload} (h : payloadOk κ p) :
    p.creditId = defaultCreditId := by
  cases p <;> simp_all [payloadOk, Payload.creditId, creditAt]

/-- C1: along every reachable state of the five-elder genesis run, every
proposed Credit in any `ProposeGenesis` broadcast is the one genesis credit
(so exactly one Credit value, identified by its id, is ever proposed), and
every signature share accepted into any node's round-1 or round-2 mapping
references that same Credit id. -/
theorem single_mint (κ : Nat) (ni : NodeInfo) (st : GState)
    (h : Relation.ReflTransGen (GStep κ) (gInit ni) st) :
    (∀ c s, GMsg.propose c s ∈ st.pool → c = creditAt κ)
  ∧ (∀ nd ∈ st.nodes, ∀ b, nd.stage = .Genesis (.ProposingGenesis b) →
      ∀ e ∈ b.signatures, Payload.creditId e.2 = defaultCreditId)
  ∧ (∀ nd ∈ st.nodes, ∀ b, nd.stage = .Genesis (.AccumulatingGenesis b) →
      ∀ e ∈ b.signatures, Payload.creditId e.2 = defaultCreditId) := by
  have hinv : gInv κ st := by
    induction h with
    | refl =>
      constructor
      · intro m hm
        simp [gInit] at hm
      · intro nd hnd
        have := List.eq_of_mem_replicate hnd
        rw [this]
        trivial
    | tail _ hstep ih => exact hstep.preserves_gInv ih
  refine ⟨?_, ?_, ?_⟩
  · intro c s hm
    exact (hinv.1 _ hm).1
  · intro nd hnd b hb e he
    have := hinv.2 nd hnd
    rw [hb] at this
    exact payloadOk_creditId (this.2.1 e he)
  · intro nd hnd b hb e he
    have := hinv.2 nd hnd
    rw [hb] at this
    exact payloadOk_creditId (this.2.1 e he)

theorem single_mint_witness :
    (∀ c s, GMsg.propose c s ∈ (gInit ⟨false, 7⟩).pool → c = creditAt 42)
  ∧ (∀ nd ∈ (gInit ⟨false, 7⟩).nodes, ∀ b, nd.stage = .Genesis (.ProposingGenesis b) →
      ∀ e ∈ b.signatures, Payload.creditId e.2 = defaultCreditId)
  ∧ (∀ nd ∈ (gInit ⟨false, 7⟩).nodes, ∀ b, nd.stage = .Genesis (.AccumulatingGenesis b) →
      ∀ e ∈ b.signatures, Payload.creditId e.2 = defaultCreditId) :=
  single_mint 42 ⟨false, 7⟩ (gInit ⟨false, 7⟩) Relation.ReflTransGen.refl

end SafeVault
